import Mathlib

/-!
Verification of the pagination-and-extraction engine of the
`get_add_distributors` scraper (sequential variant `main.py`, concurrent
variant `async.py`) against its natural-language specification.

The HTML pages are embedded as their parsed shape: the designated content
container (`div` of class `info`), its first `table`, the table's rows
(`tr`), and each row's header (`th`) and data (`td`) cell texts.  The two
engines are embedded as fuel-indexed functions over a deterministic page
oracle; each run also records the list of page indices for which requests
were issued.
-/

set_option autoImplicit false

namespace NABP

/-- One table row (`tr`): the texts of its `th` cells and of its `td` cells,
in document order. -/
structure Row where
  th : List String
  td : List String
deriving DecidableEq

/-- A `table` element: its `tr` descendants in document order. -/
structure Table where
  rows : List Row
deriving DecidableEq

/-- The designated content container (`div` of class `info`):
`table` is the result of `div_info.find('table')`. -/
structure InfoDiv where
  table : Option Table
deriving DecidableEq

/-- A parsed page (`BeautifulSoup(...)`): `div_info` is the result of
`soup.find('div', class_='info')`. -/
structure Page where
  div_info : Option InfoDiv
deriving DecidableEq

/-- `table.find('tr')`: the first row, if any. -/
def Table.find_tr (t : Table) : Option Row := t.rows.head?

/-- `table.find_all('tr')`: all rows. -/
def Table.find_all_tr (t : Table) : List Row := t.rows

/-- `table.find_all('td')`: every `td` text anywhere in the table. -/
def Table.find_all_td (t : Table) : List String := (t.rows.map Row.td).flatten

/-- One extracted record: a Python `dict` in insertion order. -/
abbrev Record := List (String × String)

/-- Insertion into a Python `dict`: an existing key has its value replaced in
place, a new key is appended at the end. -/
def dictInsert (m : Record) (k v : String) : Record :=
  if m.any (fun p => p.1 = k) then
    m.map (fun p => if p.1 = k then (k, v) else p)
  else m ++ [(k, v)]

/-- `dict(zip(headers, row_data))`: fold the positional pairs into a dict. -/
def dictOfZip (headers cells : List String) : Record :=
  (headers.zip cells).foldl (fun m p => dictInsert m p.1 p.2) []

/-- `process_page(soup)` (identical in `main.py` and `async.py`).
Returns `none` for the branch where the Python code raises: when the table
has no `tr` at all, `table.find('tr')` is `None` and `.find_all('th')` on it
raises `AttributeError`. -/
def process_page (soup : Page) : Option (List Record) :=
  match soup.div_info with
  | none => some []
  | some d =>
    match d.table with
    | none => some []
    | some t =>
      match t.find_tr with
      | none => none
      | some firstRow =>
        let headers := firstRow.th
        some ((t.find_all_tr.drop 1).filterMap (fun row =>
          if row.td.isEmpty then none
          else some (dictOfZip headers row.td)))

/-- The page-classification guard of both engines:
`div_info and div_info.find('table') and div_info.find('table').find_all('td')`.
`true` is the spec's `Continue`, `false` its `Stop`. -/
def classify (soup : Page) : Bool :=
  match soup.div_info with
  | none => false
  | some d =>
    match d.table with
    | none => false
    | some t => !t.find_all_td.isEmpty

/-! ## The engines

`main.py` drives `requests.get`, whose call either returns a response
(status code plus parsed body) or raises an exception (network failure,
timeout); the loop body checks only `status_code == 200` and has no
`try`/`except`, so a raised exception propagates out of the function. -/

/-- Outcome of one `requests.get` call in `main.py`. -/
inductive FetchOutcome where
  | success (status : Nat) (body : Page)
  | raised
deriving DecidableEq

/-- How the `main.py` loop ended: `done` is the `break` on a `Stop`-classified
200-page (the script then writes its files and finishes normally),
`failedStatus` the `break` on a non-200 status (the script also finishes
normally), `uncaught` an exception from `requests.get` propagating out of the
function. -/
inductive Termination where
  | done
  | failedStatus (k : Nat)
  | uncaught (k : Nat)
deriving DecidableEq

/-- Result of a `main.py` run: accumulated records (`all_data`), how the loop
ended, and the page indices requested, in issuance order. -/
structure MainResult where
  records : List Record
  term : Termination
  requested : List Nat
deriving DecidableEq

/-- The `while True` loop of `main.py`'s `get_add_distributors`, fuel-indexed
(`none` = fuel exhausted before the loop ended).  Extraction uses
`(process_page body).getD []`: the `none` (raising) branch of `process_page`
is unreachable here because it is guarded by `classify` (see
`classify_process_some`). -/
def runMainAux (fetch : Nat → FetchOutcome) :
    Nat → Nat → List Record → List Nat → Option MainResult
  | 0, _, _, _ => none
  | fuel+1, page, acc, req =>
    match fetch page with
    | .raised => some ⟨acc, .uncaught page, req ++ [page]⟩
    | .success st body =>
      if st = 200 then
        if classify body then
          runMainAux fetch fuel (page + 1)
            (acc ++ (process_page body).getD []) (req ++ [page])
        else some ⟨acc, .done, req ++ [page]⟩
      else some ⟨acc, .failedStatus page, req ++ [page]⟩

/-- A whole `main.py` run: the loop from `page = 0` with empty `all_data`. -/
def runMain (fetch : Nat → FetchOutcome) (fuel : Nat) : Option MainResult :=
  runMainAux fetch fuel 0 [] []

/-- Process exit code of the `main.py` script: an uncaught exception exits
non-zero; on either `break` the script continues to write its output files and
exits 0. -/
def mainExitCode (r : MainResult) : Nat :=
  match r.term with
  | .uncaught _ => 1
  | _ => 0

/-- A fetch oracle that always succeeds with status 200 and the given body. -/
def liftOk (body : Nat → Page) : Nat → FetchOutcome :=
  fun i => .success 200 (body i)

/-- Result of an `async.py` run: accumulated records, the task list (indices
whose second fetch was issued via `create_task`), and all requested indices in
issuance order. -/
structure AsyncResult where
  records : List Record
  tasks : List Nat
  requested : List Nat
deriving DecidableEq

/-- The discovery loop of `async.py`: awaits a fetch of the current index,
classifies it; on `Continue` it creates a task refetching the same index and
advances, on `Stop` it breaks.  Returns the created task indices and the
request log (each continuing index is requested twice: once awaited for
classification, once by its task); `none` = fuel exhausted.  `async.py`
performs no status check and has no exception handling, so the oracle returns
bodies only. -/
def discover (d : Nat → Page) : Nat → Nat → Option (List Nat × List Nat)
  | 0, _ => none
  | fuel+1, page =>
    if classify (d page) then
      match discover d fuel (page + 1) with
      | none => none
      | some (ts, log) => some (page :: ts, page :: page :: log)
    else some ([], [page])

/-- The second loop of `async.py`: over the gathered task responses in task
order, re-classify and extract, breaking at the first `Stop`.  `t i` is the
body the task fetch of index `i` returned. -/
def collectTasks (t : Nat → Page) : List Nat → List Record
  | [] => []
  | i :: is =>
    if classify (t i) then
      (process_page (t i)).getD [] ++ collectTasks t is
    else []

/-- A whole `async.py` run over a discovery oracle `d` (bodies returned to the
awaited classification fetches) and a task oracle `t` (bodies returned to the
task refetches). -/
def runAsync (d t : Nat → Page) (fuel : Nat) : Option AsyncResult :=
  match discover d fuel 0 with
  | none => none
  | some (ts, log) => some ⟨collectTasks t ts, ts, log⟩

/-- The records `process_page` yields on page `i` (the engines only use this
under the `classify` guard, where `process_page` is always `some`). -/
def extractRecords (body : Nat → Page) (i : Nat) : List Record :=
  (process_page (body i)).getD []

/-- All records of pages `0 .. k-1`, in page-then-row order. -/
def extractedUpTo (body : Nat → Page) (k : Nat) : List Record :=
  ((List.range k).map (extractRecords body)).flatten

/-- The request log of an `async.py` run that discovers `k` continuing pages:
each index below `k` twice, then the stopping index `k` once. -/
def asyncLog (k : Nat) : List Nat :=
  ((List.range k).map (fun i => [i, i])).flatten ++ [k]

/-! ## Response decoding

`async.py`'s `fetch_page` decodes with `response.text(encoding='ISO-8859-1')`,
a fixed single-byte legacy encoding; `main.py` uses `requests`' `response.text`,
which decodes with the charset declared in the response's Content-Type header
and falls back to ISO-8859-1 only for text content with no declared charset.
Bytes and code points are both embedded as `Nat`. -/

/-- The text encodings relevant here. -/
inductive Enc where
  | latin1
  | utf8
deriving DecidableEq

/-- ISO-8859-1 decoding: byte `b` is code point `b`. -/
def decodeLatin1 (bs : List Nat) : List Nat := bs

/-- Whether a byte is a UTF-8 continuation byte. -/
def utf8Cont (b : Nat) : Bool := decide (0x80 ≤ b ∧ b < 0xC0)

/-- Fuel-indexed worker for UTF-8 decoding with `errors='replace'`.  Every
step consumes at least one byte and spends exactly one unit of fuel, so fuel
equal to the byte count never runs out; the fuel only makes the recursion
structural. -/
def utf8Go : Nat → List Nat → List Nat
  | 0, _ => []
  | _, [] => []
  | fuel+1, b :: rest =>
    if b < 0x80 then b :: utf8Go fuel rest
    else if b < 0xC2 then 0xFFFD :: utf8Go fuel rest
    else if b < 0xE0 then
      match rest with
      | c1 :: r =>
        if utf8Cont c1 then
          ((b - 0xC0) * 0x40 + (c1 - 0x80)) :: utf8Go fuel r
        else 0xFFFD :: utf8Go fuel rest
      | [] => [0xFFFD]
    else if b < 0xF0 then
      match rest with
      | c1 :: c2 :: r =>
        if utf8Cont c1 && utf8Cont c2 then
          let cp := (b - 0xE0) * 0x1000 + (c1 - 0x80) * 0x40 + (c2 - 0x80)
          if cp < 0x800 ∨ (0xD800 ≤ cp ∧ cp < 0xE000) then
            0xFFFD :: utf8Go fuel rest
          else cp :: utf8Go fuel r
        else 0xFFFD :: utf8Go fuel rest
      | _ => [0xFFFD]
    else if b < 0xF5 then
      match rest with
      | c1 :: c2 :: c3 :: r =>
        if utf8Cont c1 && utf8Cont c2 && utf8Cont c3 then
          let cp := (b - 0xF0) * 0x40000 + (c1 - 0x80) * 0x1000 +
            (c2 - 0x80) * 0x40 + (c3 - 0x80)
          if cp < 0x10000 ∨ 0x110000 ≤ cp then
            0xFFFD :: utf8Go fuel rest
          else cp :: utf8Go fuel r
        else 0xFFFD :: utf8Go fuel rest
      | _ => [0xFFFD]
    else 0xFFFD :: utf8Go fuel rest

/-- UTF-8 decoding with `errors='replace'` (CPython's codec behaviour:
well-formed sequences decode to their code point; overlong forms, surrogates,
out-of-range values and stray or truncated sequences yield U+FFFD). -/
def utf8DecodeReplace (bs : List Nat) : List Nat := utf8Go bs.length bs

/-- Decode a byte sequence under an encoding. -/
def decodeBytes : Enc → List Nat → List Nat
  | .latin1, bs => decodeLatin1 bs
  | .utf8, bs => utf8DecodeReplace bs

/-- `async.py`'s `fetch_page`: `response.text(encoding='ISO-8859-1')` — the
declared charset of the response is ignored. -/
def fetch_page_decode (_declared : Option Enc) (bs : List Nat) : List Nat :=
  decodeBytes .latin1 bs

/-- The encoding `requests`' `Response.text` uses in `main.py`: the charset
declared in the Content-Type header if any, else ISO-8859-1 (the `requests`
default for text content without a declared charset). -/
def requestsTextEncoding (declared : Option Enc) : Enc :=
  declared.getD .latin1

/-- `main.py`'s `response.text`. -/
def responseTextDecode (declared : Option Enc) (bs : List Nat) : List Nat :=
  decodeBytes (requestsTextEncoding declared) bs

/-! ## Concrete fixtures for witnesses and counterexamples -/

/-- Header row `["ORGNAME", "STATECD"]`. -/
def hdrRow : Row := ⟨["ORGNAME", "STATECD"], []⟩

/-- Data row `["Acme Pharma", "CA"]`. -/
def dataRowA : Row := ⟨[], ["Acme Pharma", "CA"]⟩

/-- Data row `["Beta Distribution", "TX"]`. -/
def dataRowB : Row := ⟨[], ["Beta Distribution", "TX"]⟩

/-- A page whose info-div table holds the header row and one data row. -/
def pageA : Page := ⟨some ⟨some ⟨[hdrRow, dataRowA]⟩⟩⟩

/-- A second such page with a different data row. -/
def pageB : Page := ⟨some ⟨some ⟨[hdrRow, dataRowB]⟩⟩⟩

/-- A page whose info-div table is empty: it classifies `Stop`. -/
def pageEmpty : Page := ⟨some ⟨some ⟨[]⟩⟩⟩

/-- Page sequence: `pageA`, `pageB`, then empty pages. -/
def bodyW : Nat → Page :=
  fun n => if n = 0 then pageA else if n = 1 then pageB else pageEmpty

/-- Task-oracle returning different content than `bodyW` on refetch. -/
def bodyW2 : Nat → Page :=
  fun n => if n = 0 then pageB else if n = 1 then pageA else pageEmpty

/-- A fetch oracle whose every call raises (network failure / timeout). -/
def raiseFetch : Nat → FetchOutcome := fun _ => .raised

/-- A fetch oracle always answering HTTP 500. -/
def f500 : Nat → FetchOutcome := fun _ => .success 500 pageA

/-- A fetch oracle: page 0 succeeds with data, page 1 answers HTTP 500. -/
def fetchW : Nat → FetchOutcome :=
  fun n => if n = 0 then .success 200 pageA else .success 500 pageB

/-- The constant page sequence returning `pageA`. -/
def bodyA : Nat → Page := fun _ => pageA

/-! ## Extraction and classification lemmas -/

/-- A page classified `Continue` has a table with at least one row, so
`process_page` never reaches its raising branch on it. -/
theorem classify_process_some {p : Page} (h : classify p = true) :
    ∃ l, process_page p = some l := by
  rcases p with ⟨div_info⟩
  cases div_info with
  | none => simp [classify] at h
  | some d =>
    rcases d with ⟨tbl⟩
    cases tbl with
    | none => simp [classify] at h
    | some t =>
      rcases t with ⟨rows⟩
      cases rows with
      | nil => simp [classify, Table.find_all_td] at h
      | cons r rs =>
        exact ⟨_, rfl⟩

theorem filterMap_if_eq_filter_map {α β : Type} (p : α → Bool) (f : α → β)
    (l : List α) :
    l.filterMap (fun a => if p a then none else some (f a)) =
      (l.filter (fun a => !p a)).map f := by
  induction l with
  | nil => rfl
  | cons a l ih =>
    by_cases h : p a = true <;>
      simp [List.filterMap_cons, List.filter_cons, h, ih]

theorem dictInsert_not_mem {m : Record} {k : String}
    (h : ∀ q ∈ m, q.1 ≠ k) (v : String) : dictInsert m k v = m ++ [(k, v)] := by
  have : m.any (fun p => p.1 = k) = false := by
    simp only [List.any_eq_false, decide_eq_true_eq]
    intro p hp
    exact h p hp
  simp [dictInsert, this]

theorem foldl_dictInsert_nodup (l : List (String × String)) :
    ∀ m : Record, (l.map Prod.fst).Nodup → (∀ p ∈ l, ∀ q ∈ m, q.1 ≠ p.1) →
    l.foldl (fun m p => dictInsert m p.1 p.2) m = m ++ l := by
  induction l with
  | nil => intro m _ _; simp
  | cons a l ih =>
    intro m hnd hdis
    have hnd' : (l.map Prod.fst).Nodup := (List.nodup_cons.mp hnd).2
    have ha : dictInsert m a.1 a.2 = m ++ [a] := by
      have := dictInsert_not_mem (m := m) (k := a.1)
        (fun q hq => hdis a (List.mem_cons_self a l) q hq) a.2
      simpa using this
    have hdis' : ∀ p ∈ l, ∀ q ∈ m ++ [a], q.1 ≠ p.1 := by
      intro p hp q hq
      rcases List.mem_append.mp hq with hqm | hqa
      · exact hdis p (List.mem_cons_of_mem a hp) q hqm
      · have hqa' : q = a := by simpa using hqa
        rw [hqa']
        intro hcon
        exact (List.nodup_cons.mp hnd).1
          (by rw [hcon]; exact List.mem_map_of_mem Prod.fst hp)
    calc (a :: l).foldl (fun m p => dictInsert m p.1 p.2) m
        = l.foldl (fun m p => dictInsert m p.1 p.2) (dictInsert m a.1 a.2) := rfl
      _ = l.foldl (fun m p => dictInsert m p.1 p.2) (m ++ [a]) := by rw [ha]
      _ = (m ++ [a]) ++ l := ih (m ++ [a]) hnd' hdis'
      _ = m ++ a :: l := by simp

theorem mem_map_fst_zip {α β : Type} {a : α} :
    ∀ {l₁ : List α} {l₂ : List β}, a ∈ (l₁.zip l₂).map Prod.fst → a ∈ l₁ := by
  intro l₁ l₂ h
  rcases List.mem_map.mp h with ⟨p, hp, hfst⟩
  exact hfst ▸ (List.of_mem_zip hp).1

theorem nodup_map_fst_zip :
    ∀ {hs cs : List String}, hs.Nodup → ((hs.zip cs).map Prod.fst).Nodup := by
  intro hs
  induction hs with
  | nil => intro cs _; simp
  | cons h hs ih =>
    intro cs hnd
    cases cs with
    | nil => simp
    | cons c cs =>
      rw [List.zip_cons_cons, List.map_cons, List.nodup_cons]
      refine ⟨fun hmem => ?_, ih (List.nodup_cons.mp hnd).2⟩
      exact (List.nodup_cons.mp hnd).1 (mem_map_fst_zip hmem)

/-- With duplicate-free headers, `dict(zip(headers, cells))` is exactly the
positional zip (truncated at the shorter list). -/
theorem dictOfZip_eq_zip {hs cs : List String} (h : hs.Nodup) :
    dictOfZip hs cs = hs.zip cs := by
  have := foldl_dictInsert_nodup (hs.zip cs) [] (nodup_map_fst_zip h)
    (by intro p _ q hq; simp at hq)
  simpa [dictOfZip] using this

/-- `table.find_all('td')` is nonempty exactly when some row has a `td`. -/
theorem find_all_td_ne_nil_iff (t : Table) :
    t.find_all_td ≠ [] ↔ ∃ r ∈ t.rows, r.td ≠ [] := by
  rw [Table.find_all_td]
  constructor
  · intro h
    by_contra hall
    push_neg at hall
    apply h
    apply List.flatten_eq_nil_iff.mpr
    intro l hl
    rcases List.mem_map.mp hl with ⟨r, hr, rfl⟩
    exact hall r hr
  · rintro ⟨r, hr, hrtd⟩ hnil
    exact hrtd (List.flatten_eq_nil_iff.mp hnil _ (List.mem_map_of_mem Row.td hr))

/-! ## Closed forms of the two runs -/

theorem runMainAux_cont (fetch : Nat → FetchOutcome) (body : Nat → Page) :
    ∀ (n page : Nat) (acc : List Record) (req : List Nat) (fuel : Nat),
    (∀ i, i < n → fetch (page + i) = .success 200 (body (page + i))) →
    (∀ i, i < n → classify (body (page + i)) = true) →
    runMainAux fetch (fuel + n) page acc req =
      runMainAux fetch fuel (page + n)
        (acc ++ ((List.range' page n).map (extractRecords body)).flatten)
        (req ++ List.range' page n) := by
  intro n
  induction n with
  | zero => intro page acc req fuel _ _; simp [List.range']
  | succ n ih =>
    intro page acc req fuel hOk hCont
    have h0 : fetch page = .success 200 (body page) := by
      have := hOk 0 (Nat.succ_pos n); simpa using this
    have c0 : classify (body page) = true := by
      have := hCont 0 (Nat.succ_pos n); simpa using this
    have step : runMainAux fetch (fuel + (n + 1)) page acc req =
        runMainAux fetch (fuel + n) (page + 1)
          (acc ++ extractRecords body page) (req ++ [page]) := by
      show runMainAux fetch ((fuel + n) + 1) page acc req = _
      simp only [runMainAux, h0, c0, extractRecords, if_pos, if_true]
    rw [step]
    have hOk' : ∀ i, i < n →
        fetch ((page + 1) + i) = .success 200 (body ((page + 1) + i)) := by
      intro i hi
      have heq : (page + 1) + i = page + (i + 1) := by omega
      rw [heq]; exact hOk (i + 1) (by omega)
    have hCont' : ∀ i, i < n → classify (body ((page + 1) + i)) = true := by
      intro i hi
      have heq : (page + 1) + i = page + (i + 1) := by omega
      rw [heq]; exact hCont (i + 1) (by omega)
    rw [ih (page + 1) (acc ++ extractRecords body page) (req ++ [page]) fuel
      hOk' hCont']
    have hpg : (page + 1) + n = page + (n + 1) := by omega
    rw [hpg, List.range'_succ]
    simp [List.append_assoc]

theorem runMain_done (body : Nat → Page) (k fuel : Nat)
    (hc : ∀ i, i < k → classify (body i) = true)
    (hs : classify (body k) = false) (hf : k < fuel) :
    runMain (liftOk body) fuel =
      some ⟨extractedUpTo body k, .done, List.range (k + 1)⟩ := by
  obtain ⟨m, hm⟩ := Nat.exists_eq_add_of_lt hf
  have hm' : fuel = (m + 1) + k := by omega
  rw [runMain, hm']
  rw [runMainAux_cont (liftOk body) body k 0 [] [] (m + 1)
    (fun i _ => by simp [liftOk]) (fun i hi => by simpa using hc i (by omega))]
  simp only [Nat.zero_add, List.nil_append]
  have h1 : extractedUpTo body k =
      ((List.range' 0 k).map (extractRecords body)).flatten := by
    rw [extractedUpTo, List.range_eq_range']
  have h2 : List.range (k + 1) = List.range' 0 k ++ [k] := by
    rw [List.range_eq_range', List.range'_1_concat, Nat.zero_add]
  rw [h1, h2]
  simp [runMainAux, liftOk, hs]

theorem runMain_failed (fetch : Nat → FetchOutcome) (body : Nat → Page)
    (k fuel st : Nat) (bk : Page)
    (hok : ∀ i, i < k → fetch i = .success 200 (body i))
    (hc : ∀ i, i < k → classify (body i) = true)
    (hk : fetch k = .success st bk) (hst : st ≠ 200) (hf : k < fuel) :
    runMain fetch fuel =
      some ⟨extractedUpTo body k, .failedStatus k, List.range (k + 1)⟩ := by
  obtain ⟨m, hm⟩ := Nat.exists_eq_add_of_lt hf
  have hm' : fuel = (m + 1) + k := by omega
  rw [runMain, hm']
  rw [runMainAux_cont fetch body k 0 [] [] (m + 1)
    (fun i hi => by simpa using hok i (by omega))
    (fun i hi => by simpa using hc i (by omega))]
  simp only [Nat.zero_add, List.nil_append]
  have h1 : extractedUpTo body k =
      ((List.range' 0 k).map (extractRecords body)).flatten := by
    rw [extractedUpTo, List.range_eq_range']
  have h2 : List.range (k + 1) = List.range' 0 k ++ [k] := by
    rw [List.range_eq_range', List.range'_1_concat, Nat.zero_add]
  rw [h1, h2]
  simp [runMainAux, hk, hst]

theorem discover_cont (d : Nat → Page) :
    ∀ (n page fuel : Nat), (∀ i, i < n → classify (d (page + i)) = true) →
    discover d (fuel + n) page = (discover d fuel (page + n)).map
      (fun p => (List.range' page n ++ p.1,
        ((List.range' page n).map (fun i => [i, i])).flatten ++ p.2)) := by
  intro n
  induction n with
  | zero =>
    intro page fuel _
    simp only [Nat.add_zero, List.range']
    cases discover d fuel page <;> simp
  | succ n ih =>
    intro page fuel hc
    have c0 : classify (d page) = true := by
      have := hc 0 (Nat.succ_pos n); simpa using this
    have hc' : ∀ i, i < n → classify (d ((page + 1) + i)) = true := by
      intro i hi
      have heq : (page + 1) + i = page + (i + 1) := by omega
      rw [heq]; exact hc (i + 1) (by omega)
    show discover d ((fuel + n) + 1) page = _
    simp only [discover, c0, if_true, reduceIte]
    rw [ih (page + 1) fuel hc']
    have hpg : (page + 1) + n = page + (n + 1) := by omega
    rw [hpg, List.range'_succ]
    cases discover d fuel (page + (n + 1)) <;> simp

theorem discover_closed (d : Nat → Page) (k fuel : Nat)
    (hc : ∀ i, i < k → classify (d i) = true)
    (hs : classify (d k) = false) (hf : k < fuel) :
    discover d fuel 0 = some (List.range k, asyncLog k) := by
  obtain ⟨m, hm⟩ := Nat.exists_eq_add_of_lt hf
  have hm' : fuel = (m + 1) + k := by omega
  rw [hm']
  rw [discover_cont d k 0 (m + 1) (fun i hi => by simpa using hc i (by omega))]
  simp only [Nat.zero_add]
  simp [discover, hs, asyncLog, List.range_eq_range']

theorem collectTasks_all (t : Nat → Page) :
    ∀ l : List Nat, (∀ i ∈ l, classify (t i) = true) →
    collectTasks t l = (l.map (extractRecords t)).flatten := by
  intro l
  induction l with
  | nil => intro _; rfl
  | cons i is ih =>
    intro h
    have hi : classify (t i) = true := h i (List.mem_cons_self i is)
    simp only [collectTasks, hi, if_true, reduceIte, List.map_cons,
      List.flatten_cons, extractRecords]
    rw [ih (fun j hj => h j (List.mem_cons_of_mem i hj))]

theorem runAsync_closed (d t : Nat → Page) (k fuel : Nat)
    (hc : ∀ i, i < k → classify (d i) = true)
    (hs : classify (d k) = false) (hf : k < fuel) :
    runAsync d t fuel =
      some ⟨collectTasks t (List.range k), List.range k, asyncLog k⟩ := by
  rw [runAsync, discover_closed d k fuel hc hs hf]

theorem mainRecords_eq_asyncRecords (body : Nat → Page) :
    ∀ (fuel page : Nat) (acc : List Record) (req : List Nat),
    (runMainAux (liftOk body) fuel page acc req).map MainResult.records =
      (discover body fuel page).map (fun p => acc ++ collectTasks body p.1) := by
  intro fuel
  induction fuel with
  | zero => intro page acc req; rfl
  | succ fuel ih =>
    intro page acc req
    by_cases h : classify (body page) = true
    · have lhs : runMainAux (liftOk body) (fuel + 1) page acc req =
          runMainAux (liftOk body) fuel (page + 1)
            (acc ++ (process_page (body page)).getD []) (req ++ [page]) := by
        simp only [runMainAux, liftOk, h, if_pos, if_true, reduceIte]
      rw [lhs, ih (page + 1) (acc ++ (process_page (body page)).getD [])
        (req ++ [page])]
      show _ = (discover body (fuel + 1) page).map _
      simp only [discover, h, if_true, reduceIte]
      cases discover body fuel (page + 1) with
      | none => rfl
      | some p =>
        simp [collectTasks, h, List.append_assoc]
    · have hfalse : classify (body page) = false := by
        cases hcl : classify (body page) with
        | false => rfl
        | true => exact absurd hcl h
      have lhs : runMainAux (liftOk body) (fuel + 1) page acc req =
          some ⟨acc, .done, req ++ [page]⟩ := by
        simp only [runMainAux, liftOk, hfalse, Bool.false_eq_true, if_false,
          if_pos, if_true, reduceIte]
      rw [lhs]
      show _ = (discover body (fuel + 1) page).map _
      simp only [discover, hfalse, Bool.false_eq_true, if_false, reduceIte]
      simp [collectTasks]

/-! ## Shape of the async request log -/

theorem mem_asyncLog (k j : Nat) : j ∈ asyncLog k ↔ j < k + 1 := by
  simp only [asyncLog, List.mem_append, List.mem_flatten, List.mem_map]
  constructor
  · rintro (⟨l, ⟨i, hi, rfl⟩, hj⟩ | hj)
    · have := List.mem_range.mp hi
      simp only [List.mem_cons, List.not_mem_nil, or_false] at hj
      omega
    · simp only [List.mem_cons, List.not_mem_nil, or_false] at hj
      omega
  · intro hj
    by_cases h : j < k
    · exact Or.inl ⟨[j, j], ⟨j, List.mem_range.mpr h, rfl⟩, by simp⟩
    · have hk : j = k := by omega
      exact Or.inr (by simp [hk])

theorem count_flatten_twice (k : Nat) :
    ∀ i : Nat, (((List.range k).map (fun j => [j, j])).flatten).count i =
      if i < k then 2 else 0 := by
  induction k with
  | zero => intro i; simp
  | succ k ih =>
    intro i
    rw [List.range_succ, List.map_append, List.flatten_append,
      List.count_append, ih i]
    simp only [List.map_cons, List.map_nil, List.flatten_cons,
      List.flatten_nil, List.append_nil]
    have hc : ([i, i] : List Nat).count i = 2 := by simp [List.count_cons]
    by_cases h : i = k
    · subst h
      rw [hc]
      split_ifs <;> omega
    · have hzero : ([k, k] : List Nat).count i = 0 := by
        simp [List.count_cons, h]
      rw [hzero]
      split_ifs <;> omega

theorem count_asyncLog_lt {k i : Nat} (h : i < k) : (asyncLog k).count i = 2 := by
  have hne : i ≠ k := by omega
  rw [asyncLog, List.count_append, count_flatten_twice k i]
  simp [List.count_cons, hne, h]

theorem count_asyncLog_self (k : Nat) : (asyncLog k).count k = 1 := by
  rw [asyncLog, List.count_append, count_flatten_twice k k]
  simp

theorem length_flatten_twice (k : Nat) :
    (((List.range k).map (fun j => [j, j])).flatten).length = 2 * k := by
  induction k with
  | zero => rfl
  | succ k ih =>
    rw [List.range_succ, List.map_append, List.flatten_append,
      List.length_append, ih]
    simp only [List.map_cons, List.map_nil, List.flatten_cons,
      List.flatten_nil, List.append_nil, List.length_cons, List.length_nil]
    omega

theorem length_asyncLog (k : Nat) : (asyncLog k).length = 2 * k + 1 := by
  rw [asyncLog, List.length_append, length_flatten_twice]
  simp

/-! ## The claims -/

/-- C3: a page is classified Continue (`true`) iff the parsed document has the
info container, the container has a table, and that table has at least one
`td` anywhere; otherwise Stop (`false`). -/
theorem C3_classify_iff (p : Page) :
    classify p = true ↔
      ∃ d, p.div_info = some d ∧ ∃ t, d.table = some t ∧
        ∃ r ∈ t.rows, r.td ≠ [] := by
  rcases p with ⟨di⟩
  cases di with
  | none => simp [classify]
  | some d =>
    rcases d with ⟨tb⟩
    cases tb with
    | none => simp [classify]
    | some t =>
      have hclass : classify ⟨some ⟨some t⟩⟩ = true ↔ t.find_all_td ≠ [] := by
        simp [classify]
      rw [hclass, find_all_td_ne_nil_iff]
      constructor
      · intro h
        exact ⟨⟨some t⟩, rfl, t, rfl, h⟩
      · rintro ⟨d', hd', t', ht', h⟩
        obtain rfl : (⟨some t⟩ : InfoDiv) = d' := Option.some.inj hd'
        obtain rfl : t = t' := Option.some.inj ht'
        exact h

/-- C4: extraction returns an empty sequence when the container or its table
is absent; on a table with rows, the first row's `th` cells are the schema,
each later row with at least one `td` yields one record zipping headers to
cells positionally (rows with zero `td` are skipped), and with duplicate-free
headers the zip semantics makes missing trailing columns simply absent. -/
theorem C4_extraction_schema :
    process_page ⟨none⟩ = some [] ∧
    process_page ⟨some ⟨none⟩⟩ = some [] ∧
    (∀ (first : Row) (rest : List Row),
      process_page ⟨some ⟨some ⟨first :: rest⟩⟩⟩ =
        some ((rest.filter (fun r => !r.td.isEmpty)).map
          (fun r => dictOfZip first.th r.td))) ∧
    (∀ hs cs : List String, hs.Nodup → dictOfZip hs cs = hs.zip cs) := by
  refine ⟨rfl, rfl, ?_, fun hs cs h => dictOfZip_eq_zip h⟩
  intro first rest
  have hred : process_page ⟨some ⟨some ⟨first :: rest⟩⟩⟩ =
      some (rest.filterMap (fun row => if row.td.isEmpty then none
        else some (dictOfZip first.th row.td))) := rfl
  rw [hred, filterMap_if_eq_filter_map (fun r => r.td.isEmpty)
    (fun r => dictOfZip first.th r.td) rest]

/-- C4 witness: the zip clause at concrete duplicate-free headers with a
short row, and a concrete page extraction. -/
theorem C4_witness :
    dictOfZip ["ORGNAME", "STATECD"] ["Acme Pharma"] =
      ["ORGNAME", "STATECD"].zip ["Acme Pharma"] ∧
    process_page pageA =
      some [[("ORGNAME", "Acme Pharma"), ("STATECD", "CA")]] :=
  ⟨C4_extraction_schema.2.2.2 ["ORGNAME", "STATECD"] ["Acme Pharma"]
    (by decide), by decide⟩

/-- C9: on every page the classifier marks Continue, the table has a first
row, so the extractor's unguarded first-row access succeeds: the `none`
(raising) branch of `process_page` is unreachable under the Continue
precondition. -/
theorem C9_continue_total_extraction (p : Page) (h : classify p = true) :
    ∃ l, process_page p = some l :=
  classify_process_some h

/-- C9 witness: a concrete Continue page on which extraction is `some`. -/
theorem C9_witness : classify pageA = true ∧ ∃ l, process_page pageA = some l :=
  ⟨by decide, C9_continue_total_extraction pageA (by decide)⟩

/-- C1: when the first Stop-classified page has index k (all fetches
succeeding), both engines end with exactly the records of pages 0..k-1 in
page-then-row order, the stopping page's extraction is never appended, and no
index past k is requested. -/
theorem C1_prefix_exact (body : Nat → Page) (k fuel : Nat)
    (hc : ∀ i, i < k → classify (body i) = true)
    (hs : classify (body k) = false) (hf : k < fuel) :
    runMain (liftOk body) fuel =
      some ⟨extractedUpTo body k, .done, List.range (k + 1)⟩ ∧
    runAsync body body fuel =
      some ⟨extractedUpTo body k, List.range k, asyncLog k⟩ ∧
    (∀ j ∈ List.range (k + 1), j ≤ k) ∧ (∀ j ∈ asyncLog k, j ≤ k) := by
  refine ⟨runMain_done body k fuel hc hs hf, ?_, ?_, ?_⟩
  · rw [runAsync_closed body body k fuel hc hs hf]
    have hck : collectTasks body (List.range k) = extractedUpTo body k := by
      rw [collectTasks_all body (List.range k)
        (fun i hi => hc i (List.mem_range.mp hi))]
      rfl
    rw [hck]
  · intro j hj
    have := List.mem_range.mp hj
    omega
  · intro j hj
    have := (mem_asyncLog k j).mp hj
    omega

/-- C1 witness: two data pages then an empty page, both engines. -/
theorem C1_witness :
    (∀ i, i < 2 → classify (bodyW i) = true) ∧ classify (bodyW 2) = false ∧
    (runMain (liftOk bodyW) 3 =
        some ⟨extractedUpTo bodyW 2, .done, List.range 3⟩ ∧
      runAsync bodyW bodyW 3 =
        some ⟨extractedUpTo bodyW 2, List.range 2, asyncLog 2⟩ ∧
      (∀ j ∈ List.range 3, j ≤ 2) ∧ (∀ j ∈ asyncLog 2, j ≤ 2)) :=
  ⟨by decide, by decide,
   C1_prefix_exact bodyW 2 3 (by decide) (by decide) (by omega)⟩

/-- C2: for every fixed page sequence, the sequential and the concurrent
variant produce the same record list (same records, same field order, same
sequence order), fuel for fuel. -/
theorem C2_variants_equal (body : Nat → Page) (fuel : Nat) :
    (runMain (liftOk body) fuel).map MainResult.records =
      (runAsync body body fuel).map AsyncResult.records := by
  rw [runMain, mainRecords_eq_asyncRecords body fuel 0 [] []]
  cases h : discover body fuel 0 with
  | none => simp [runAsync, h]
  | some p =>
    obtain ⟨ts, log⟩ := p
    simp [runAsync, h]

/-- C8: discovery is sequential: the sequential engine requests exactly
0..k, the concurrent engine's request log is each continuing index twice then
the stopping index, the requested index set is the prefix 0..k, and an index
j+1 is only ever requested when j classified Continue. -/
theorem C8_discovery_sequential (body : Nat → Page) (k fuel : Nat)
    (hc : ∀ i, i < k → classify (body i) = true)
    (hs : classify (body k) = false) (hf : k < fuel) :
    (runMain (liftOk body) fuel).map MainResult.requested =
      some (List.range (k + 1)) ∧
    (runAsync body body fuel).map AsyncResult.requested = some (asyncLog k) ∧
    (∀ j, j ∈ asyncLog k ↔ j ∈ List.range (k + 1)) ∧
    (∀ j, j + 1 ∈ List.range (k + 1) → classify (body j) = true) ∧
    (∀ j, j + 1 ∈ asyncLog k → classify (body j) = true) := by
  refine ⟨?_, ?_, ?_, ?_, ?_⟩
  · rw [runMain_done body k fuel hc hs hf]; rfl
  · rw [runAsync_closed body body k fuel hc hs hf]; rfl
  · intro j
    rw [mem_asyncLog, List.mem_range]
  · intro j hj
    have := List.mem_range.mp hj
    exact hc j (by omega)
  · intro j hj
    have := (mem_asyncLog k (j + 1)).mp hj
    exact hc j (by omega)

/-- C8 witness: the discovery invariant at a concrete two-page sequence. -/
theorem C8_witness :
    (∀ i, i < 2 → classify (bodyW i) = true) ∧ classify (bodyW 2) = false ∧
    ((runMain (liftOk bodyW) 4).map MainResult.requested =
        some (List.range 3) ∧
      (runAsync bodyW bodyW 4).map AsyncResult.requested = some (asyncLog 2) ∧
      (∀ j, j ∈ asyncLog 2 ↔ j ∈ List.range 3) ∧
      (∀ j, j + 1 ∈ List.range 3 → classify (bodyW j) = true) ∧
      (∀ j, j + 1 ∈ asyncLog 2 → classify (bodyW j) = true)) :=
  ⟨by decide, by decide,
   C8_discovery_sequential bodyW 2 4 (by decide) (by decide) (by omega)⟩

/-- C10: in the concurrent variant every continuing index is fetched twice
(2k+1 requests for k continuing pages; each index below k appears twice in
the log, the stopping index once), the output records are extracted from the
task (second) responses, and the output matches the classification-time
content exactly when both fetches of each index return the same content. -/
theorem C10_double_fetch (d t : Nat → Page) (k fuel : Nat)
    (hc : ∀ i, i < k → classify (d i) = true)
    (hs : classify (d k) = false) (hf : k < fuel) :
    runAsync d t fuel =
      some ⟨collectTasks t (List.range k), List.range k, asyncLog k⟩ ∧
    (asyncLog k).length = 2 * k + 1 ∧
    (∀ i, i < k → (asyncLog k).count i = 2) ∧
    (asyncLog k).count k = 1 ∧
    ((∀ i, i < k → t i = d i) →
      collectTasks t (List.range k) = extractedUpTo d k) := by
  refine ⟨runAsync_closed d t k fuel hc hs hf, length_asyncLog k,
    fun i hi => count_asyncLog_lt hi, count_asyncLog_self k, ?_⟩
  intro hagree
  have hct : ∀ i ∈ List.range k, classify (t i) = true := by
    intro i hi
    have hik := List.mem_range.mp hi
    rw [hagree i hik]
    exact hc i hik
  rw [collectTasks_all t (List.range k) hct, extractedUpTo]
  congr 1
  apply List.map_congr_left
  intro i hi
  rw [extractRecords, extractRecords, hagree i (List.mem_range.mp hi)]

/-- C10 witness: task responses differing from discovery responses; the
output is extracted from the task responses and differs from the
classification-time content. -/
theorem C10_witness :
    (∀ i, i < 2 → classify (bodyW i) = true) ∧ classify (bodyW 2) = false ∧
    (runAsync bodyW bodyW2 3 =
        some ⟨collectTasks bodyW2 (List.range 2), List.range 2, asyncLog 2⟩ ∧
      (asyncLog 2).length = 2 * 2 + 1 ∧
      (∀ i, i < 2 → (asyncLog 2).count i = 2) ∧
      (asyncLog 2).count 2 = 1 ∧
      ((∀ i, i < 2 → bodyW2 i = bodyW i) →
        collectTasks bodyW2 (List.range 2) = extractedUpTo bodyW 2)) ∧
    collectTasks bodyW2 (List.range 2) ≠ extractedUpTo bodyW 2 :=
  ⟨by decide, by decide,
   C10_double_fetch bodyW bodyW2 2 3 (by decide) (by decide) (by omega),
   by decide⟩

/-- C5 counterexample: under a response that declares a UTF-8 charset,
`main.py`'s `response.text` does not use the fixed legacy encoding: the
legacy-encoded byte 0xE9 decodes to U+FFFD instead of code point 0xE9, and
the two variants disagree on the same response. -/
theorem C5_counterexample :
    responseTextDecode (some .utf8) [0xE9] = [0xFFFD] ∧
    fetch_page_decode (some .utf8) [0xE9] = [0xE9] ∧
    responseTextDecode (some .utf8) [0xE9] ≠
      fetch_page_decode (some .utf8) [0xE9] := by
  decide

/-- C5 amended: the concurrent variant always decodes with the fixed legacy
single-byte encoding, so every byte round-trips to its own code point; the
sequential variant does so only when the response declares no charset (or
declares the legacy one). -/
theorem C5_fixed_encoding (declared : Option Enc) (bs : List Nat) :
    fetch_page_decode declared bs = bs ∧
    responseTextDecode (some .latin1) bs = bs ∧
    (declared = none → responseTextDecode declared bs = bs) :=
  ⟨rfl, rfl, fun h => by rw [h]; rfl⟩

/-- C5 witness: the non-ASCII legacy byte 0xE9 round-trips in the concurrent
variant and in the sequential variant without a declared charset. -/
theorem C5_witness :
    fetch_page_decode (some Enc.utf8) [0xE9] = [0xE9] ∧
    responseTextDecode none [0xE9] = [0xE9] :=
  ⟨(C5_fixed_encoding (some Enc.utf8) [0xE9]).1,
   (C5_fixed_encoding none [0xE9]).2.2 rfl⟩

/-- C6 counterexample: a raising fetch (network failure / timeout) at page 0
is not converted to a state transition: it propagates out of the engine and
the process terminates with a non-zero exit code. -/
theorem C6_counterexample :
    runMain raiseFetch 5 = some ⟨[], .uncaught 0, [0]⟩ ∧
    mainExitCode ⟨[], .uncaught 0, [0]⟩ ≠ 0 := by
  decide

/-- C6 amended: in the sequential variant only a non-success HTTP status is
handled inside the engine (converted to a halting transition); a raised fetch
exception propagates uncaught. -/
theorem C6_error_handling (fetch : Nat → FetchOutcome) (fuel page : Nat)
    (acc : List Record) (req : List Nat) :
    (∀ st body, fetch page = .success st body → st ≠ 200 →
      runMainAux fetch (fuel + 1) page acc req =
        some ⟨acc, .failedStatus page, req ++ [page]⟩) ∧
    (fetch page = .raised →
      runMainAux fetch (fuel + 1) page acc req =
        some ⟨acc, .uncaught page, req ++ [page]⟩) := by
  constructor
  · intro st body h hst
    simp [runMainAux, h, hst]
  · intro h
    simp [runMainAux, h]

/-- C6 witness: an HTTP-500 fetch halts with a failure transition, a raising
fetch ends uncaught, both at page 0. -/
theorem C6_witness :
    runMainAux f500 1 0 [] [] = some ⟨[], .failedStatus 0, [0]⟩ ∧
    runMainAux raiseFetch 1 0 [] [] = some ⟨[], .uncaught 0, [0]⟩ :=
  ⟨(C6_error_handling f500 0 0 [] []).1 500 pageA rfl (by decide),
   (C6_error_handling raiseFetch 0 0 [] []).2 rfl⟩

/-- C7 counterexample: an HTTP 500 at page 0 halts the engine, yet the script
completes normally: the exit code is 0, not non-zero as the claim requires. -/
theorem C7_counterexample :
    runMain f500 3 = some ⟨[], .failedStatus 0, [0]⟩ ∧
    mainExitCode ⟨[], .failedStatus 0, [0]⟩ = 0 := by
  decide

/-- C7 amended: on a non-success status at index k after k continuing pages,
the engine halts without attempting further indices, records the failing
index, keeps the records of pages 0..k-1 — but no error value accompanies
them and the process exits 0 rather than non-zero. -/
theorem C7_failed_transition (fetch : Nat → FetchOutcome) (body : Nat → Page)
    (k fuel st : Nat) (bk : Page)
    (hok : ∀ i, i < k → fetch i = .success 200 (body i))
    (hc : ∀ i, i < k → classify (body i) = true)
    (hk : fetch k = .success st bk) (hst : st ≠ 200) (hf : k < fuel) :
    runMain fetch fuel =
      some ⟨extractedUpTo body k, .failedStatus k, List.range (k + 1)⟩ ∧
    mainExitCode
      ⟨extractedUpTo body k, .failedStatus k, List.range (k + 1)⟩ = 0 :=
  ⟨runMain_failed fetch body k fuel st bk hok hc hk hst hf, rfl⟩

/-- C7 witness: one good page, then HTTP 500 at index 1. -/
theorem C7_witness :
    (∀ i, i < 1 → fetchW i = .success 200 (bodyA i)) ∧
    fetchW 1 = .success 500 pageB ∧ (500 : Nat) ≠ 200 ∧
    (runMain fetchW 3 =
        some ⟨extractedUpTo bodyA 1, .failedStatus 1, List.range 2⟩ ∧
      mainExitCode
        ⟨extractedUpTo bodyA 1, .failedStatus 1, List.range 2⟩ = 0) :=
  ⟨by decide, by decide, by decide,
   C7_failed_transition fetchW bodyA 1 3 500 pageB (by decide) (by decide)
     (by decide) (by decide) (by omega)⟩

end NABP
